import Mathlib

/-!
Verification of the CZI to OME-TIFF / Imaris converter
(src/CZI-to-Imaris_or_OME-TIF.py).

The script is a thin pipeline: probe a CZI file for its T/C/Z extents,
assemble every mosaic plane into a dense 5-D array indexed [T, C, Z, Y, X],
and hand the array to an external writer (tifffile for OME-TIFF,
PyImarisWriter for Imaris).  We embed the script shallowly:

* a CZI source is a record of its dimension labels, per-dimension counts and
  a deterministic plane-decoding function (the external reader);
* numpy arrays are flat row-major lists of integers together with a shape
  and a dtype string;
* the external writer calls become events in an explicit trace, and the
  points where an external call may fail (converter construction, block
  copy, finalize) are booleans of the environment;
* Python exceptions become an Except value.

The assembly loop of convert_to_ometiff (lines 45-59) and of convert_to_ims
(lines 69-83) is verbatim identical in the script; it is modelled once as
the function assemble, which both converter models invoke.
-/

/-- A numpy array as returned by CziFile.read_mosaic: a shape, the flat
row-major buffer, and a dtype rendered as a string. -/
structure NpArray where
  shape : List Nat
  data : List Int
  dtype : String
deriving DecidableEq, Repr

/-- The observable interface of an opened CziFile: dimension labels
(czi.dims), per-dimension counts (czi.size), and the deterministic
read_mosaic decoder taking T, C, Z and a scale factor. -/
structure CziFile where
  dims : List Char
  size : List Nat
  readMosaic : Nat → Nat → Nat → ℚ → NpArray

/-- Python dict(zip(keys, vals)).get(k, d): zip truncates to the shorter
list, a duplicated key keeps its last value, a missing key yields the
default. -/
def dictGet (keys : List Char) (vals : List Nat) (k : Char) (d : Nat) : Nat :=
  match (List.zip keys vals).reverse.find? (fun p => p.1 == k) with
  | some p => p.2
  | none => d

/-- mos.reshape(-1, Y, X)[0]: numpy infers the leading dimension, which
requires Y*X to be positive and to divide the buffer size, and indexing the
first plane requires at least one plane; the result is the first Y*X
entries of the flat buffer. -/
def extractPlane (mos : NpArray) (Y X : Nat) : Option (List Int) :=
  if 0 < Y * X ∧ mos.data.length % (Y * X) = 0 ∧ Y * X ≤ mos.data.length then
    some (mos.data.take (Y * X))
  else
    none

/-- The plane decoded for one (t, c, z) triple: read_mosaic followed by the
reshape-and-index step of the loop body. -/
def planeO (czi : CziFile) (scale : ℚ) (Y X t c z : Nat) : Option (List Int) :=
  extractPlane (czi.readMosaic t c z scale) Y X

/-- arr[t, c, z] = plane on the flat row-major buffer: replace the segment
starting at the given offset by the plane. -/
def writePlane (data : List Int) (off : Nat) (p : List Int) : List Int :=
  data.take off ++ p ++ data.drop (off + p.length)

/-- Row-major offset (in planes) of the (t, c, z) slice of a (T, C, Z, Y, X)
array. -/
def offsetOf (C Z : Nat) : Nat × Nat × Nat → Nat
  | (t, c, z) => (t * C + c) * Z + z

/-- The nested loop "for t in range(T): for c in range(C): for z in
range(Z)" as the list of visited triples, outer to inner. -/
def triples (T C Z : Nat) : List (Nat × Nat × Nat) :=
  (List.range T).flatMap fun t =>
    (List.range C).flatMap fun c =>
      (List.range Z).map fun z => (t, c, z)

/-- Events of the observable trace of a conversion: file open, plane
reads, voxel-size prompts, and the external writer calls. -/
inductive Ev where
  | openFile
  | readPlane (t c z : Nat)
  | askVoxel (ax : Char)
  | initConverter (dtype : String) (imageSize : Nat × Nat × Nat × Nat × Nat)
      (sampleSize : Nat × Nat × Nat × Nat × Nat)
      (blockSize : Nat × Nat × Nat × Nat × Nat)
      (dimSeq : List Char) (outputPath : String)
  | copyBlock (flat : List Int) (idx : Nat × Nat × Nat × Nat × Nat)
  | finishCall (extents : ℚ × ℚ × ℚ × ℚ × ℚ × ℚ) (names : List String)
      (colors : List (ℚ × ℚ × ℚ × ℚ)) (adjust : Bool)
  | destroy
  | writeTiff (outputPath : String) (flat : List Int) (axesMeta : String)
deriving DecidableEq, Repr

/-- The assembly loop body over the remaining triples: read one mosaic per
triple, extract the plane, write it at its row-major offset; a failed
extraction raises (models the numpy ValueError/IndexError propagating).
Returns the trace of plane reads and the final buffer when all reads
succeed. -/
def runLoop (czi : CziFile) (scale : ℚ) (Y X C Z : Nat) :
    List (Nat × Nat × Nat) → List Int → List Ev × Option (List Int)
  | [], acc => ([], some acc)
  | (t, c, z) :: rest, acc =>
    match planeO czi scale Y X t c z with
    | none => ([Ev.readPlane t c z], none)
    | some p =>
      let r := runLoop czi scale Y X C Z rest
        (writePlane acc (offsetOf C Z (t, c, z) * (Y * X)) p)
      (Ev.readPlane t c z :: r.1, r.2)

/-- The 5-D array produced by the assembly stage, with the extents that
were probed for it. -/
structure Assembled where
  T : Nat
  C : Nat
  Z : Nat
  Y : Nat
  X : Nat
  dtype : String
  data : List Int
deriving DecidableEq, Repr

/-- sizes.get of one dimension label with default 1, where sizes is
dict(zip(czi.dims, czi.size)). -/
def probedDim (czi : CziFile) (d : Char) : Nat :=
  dictGet czi.dims czi.size d 1

/-- The sample mosaic of line 50 / 74, read at T=0, C=0, Z=0. -/
def sampleMosaic (czi : CziFile) (scale : ℚ) : NpArray :=
  czi.readMosaic 0 0 0 scale

/-- sample.shape[-2], defined when the sample has at least two axes. -/
def probedY (czi : CziFile) (scale : ℚ) : Nat :=
  (sampleMosaic czi scale).shape.getD ((sampleMosaic czi scale).shape.length - 2) 0

/-- sample.shape[-1]. -/
def probedX (czi : CziFile) (scale : ℚ) : Nat :=
  (sampleMosaic czi scale).shape.getD ((sampleMosaic czi scale).shape.length - 1) 0

/-- Lines 45-59 / 69-83 of the script: open the CZI, look up the T, C, Z
extents with default 1, read a sample mosaic at (0, 0, 0) to infer Y, X and
the dtype, allocate np.zeros((T, C, Z, Y, X)) and run the nested loop.
Failure (sample with fewer than two axes, or a plane that cannot be
reshaped) models the Python exception propagating. -/
def assemble (czi : CziFile) (scale : ℚ) : List Ev × Option Assembled :=
  let T := probedDim czi 'T'
  let C := probedDim czi 'C'
  let Z := probedDim czi 'Z'
  if 2 ≤ (sampleMosaic czi scale).shape.length then
    let Y := probedY czi scale
    let X := probedX czi scale
    let r := runLoop czi scale Y X C Z (triples T C Z)
      (List.replicate (T * C * Z * (Y * X)) 0)
    (Ev.openFile :: Ev.readPlane 0 0 0 :: r.1,
      r.2.map fun data => ⟨T, C, Z, Y, X, (sampleMosaic czi scale).dtype, data⟩)
  else
    ([Ev.openFile, Ev.readPlane 0 0 0], none)

/-- The (Y, X) slice of the assembled array at indices [t, c, z]. -/
def sliceAt (a : Assembled) (t c z : Nat) : List Int :=
  (a.data.drop (offsetOf a.C a.Z (t, c, z) * (a.Y * a.X))).take (a.Y * a.X)

/-- convert_to_ometiff: assemble, then hand the array to tifffile.imwrite
with axes metadata TCZYX. -/
def convert_to_ometiff (czi : CziFile) (outputPath : String) (scale : ℚ) :
    List Ev × Except String Unit :=
  let r := assemble czi scale
  match r.2 with
  | none => (r.1, Except.error "assembly failed")
  | some a => (r.1 ++ [Ev.writeTiff outputPath a.data "TCZYX"], Except.ok ())

/-- Everything the Imaris conversion observes from outside: whether
PyImarisWriter imported at startup, the CZI source, the three voxel-size
dialog results (none models a cancelled dialog), and whether each external
writer call succeeds. -/
structure ImsEnv where
  imarisAvailable : Bool
  czi : CziFile
  promptX : Option ℚ
  promptY : Option ℚ
  promptZ : Option ℚ
  initOk : Bool
  copyOk : Bool
  finishOk : Bool

/-- The fixed four-entry palette of line 122 of the script. -/
def base_rgbs : List (ℚ × ℚ × ℚ) := [(1, 0, 0), (0, 1, 0), (0, 0, 1), (1, 1, 0)]

/-- params.set_channel_name(ci, f"Channel {ci}") for ci in range(C). -/
def channelNames (C : Nat) : List String :=
  (List.range C).map fun ci => "Channel " ++ toString ci

/-- The per-channel colors of lines 127-132: base_rgbs[ci % 4] with alpha
1.0, for ci in range(C). -/
def color_infos (C : Nat) : List (ℚ × ℚ × ℚ × ℚ) :=
  (List.range C).map fun ci =>
    let rgb := base_rgbs.getD (ci % base_rgbs.length) (0, 0, 0)
    (rgb.1, rgb.2.1, rgb.2.2, 1)

/-- convert_to_ims (lines 65-140): fail if PyImarisWriter is unavailable,
assemble the array, prompt for the three voxel sizes (all three dialogs are
shown before the None check), build the writer geometry, copy the single
block, finish and destroy.  The external Finish call also receives a
wall-clock timestamp (datetime.now()); being nondeterministic presentation
data it is not part of the modelled event. -/
def convert_to_ims (env : ImsEnv) (outputPath : String) (scale : ℚ) :
    List Ev × Except String Unit :=
  if env.imarisAvailable = false then
    ([], Except.error "PyImarisWriter unavailable; cannot write .ims")
  else
    let r := assemble env.czi scale
    match r.2 with
    | none => (r.1, Except.error "assembly failed")
    | some a =>
      let tr1 := r.1 ++ [Ev.askVoxel 'X', Ev.askVoxel 'Y', Ev.askVoxel 'Z']
      match env.promptX, env.promptY, env.promptZ with
      | some vx, some vy, some vz =>
        let imageSize := (a.X, a.Y, a.Z, a.C, a.T)
        let blockSize := imageSize
        let sampleSize := (1, 1, 1, 1, 1)
        let tr2 := tr1 ++ [Ev.initConverter a.dtype imageSize sampleSize blockSize
          ['x', 'y', 'z', 'c', 't'] outputPath]
        if env.initOk = false then (tr2, Except.error "ImageConverter construction failed")
        else
          let flat := a.data
          let tr3 := tr2 ++ [Ev.copyBlock flat (0, 0, 0, 0, 0)]
          if env.copyOk = false then (tr3, Except.error "CopyBlock failed")
          else
            let extents := ((0 : ℚ), (0 : ℚ), (0 : ℚ),
              vx * (a.X : ℚ), vy * (a.Y : ℚ), vz * (a.Z : ℚ))
            let tr4 := tr3 ++ [Ev.finishCall extents (channelNames a.C)
              (color_infos a.C) true]
            if env.finishOk = false then (tr4, Except.error "Finish failed")
            else (tr4 ++ [Ev.destroy], Except.ok ())
      | _, _, _ => (tr1, Except.error "Voxel size entry cancelled.")

/-- Recognizers for event kinds, used to state trace properties. -/
def isReadEv : Ev → Bool
  | Ev.readPlane _ _ _ => true
  | _ => false

def isInitEv : Ev → Bool
  | Ev.initConverter _ _ _ _ _ _ => true
  | _ => false

def isCopyEv : Ev → Bool
  | Ev.copyBlock _ _ => true
  | _ => false

def isFinishEv : Ev → Bool
  | Ev.finishCall _ _ _ _ => true
  | _ => false

def isDestroyEv : Ev → Bool
  | Ev.destroy => true
  | _ => false

/-- Whether a trace contains a call of the given kind. -/
def hasEv (p : Ev → Bool) (tr : List Ev) : Bool := tr.any p

/-- Whether a conversion outcome is an exception. -/
def isErr : Except String Unit → Bool
  | Except.error _ => true
  | Except.ok _ => false

/-- A small concrete source used to instantiate the theorems: extents
T=1, C=1, Z=2, every mosaic of shape (1, 2, 2) (a leading singleton
dimension), sixteen-bit samples. -/
def testCzi : CziFile where
  dims := ['T', 'C', 'Z']
  size := [1, 1, 2]
  readMosaic := fun t c z _ =>
    ⟨[1, 2, 2], [(t : Int) + (c : Int) + (z : Int), 1, 2, 3], "uint16"⟩

/-- The array assemble produces from testCzi at scale 1. -/
def testA : Assembled :=
  ⟨1, 1, 2, 2, 2, "uint16", [0, 1, 2, 3, 1, 1, 2, 3]⟩

/-- A source whose dimension labels carry none of T, C, Z. -/
def testCziNoDims : CziFile where
  dims := ['Y', 'X']
  size := [2, 2]
  readMosaic := fun _ _ _ _ => ⟨[2, 2], [9, 8, 7, 6], "uint8"⟩

/-- Imaris environment: writer library missing. -/
def testEnvOff : ImsEnv :=
  ⟨false, testCzi, some 1, some 1, some 1, true, true, true⟩

/-- Imaris environment: everything available, all prompts answered. -/
def testEnvOk : ImsEnv :=
  ⟨true, testCzi, some 1, some 1, some 1, true, true, true⟩

/-- Imaris environment: the Y voxel-size dialog is cancelled. -/
def testEnvCancel : ImsEnv :=
  ⟨true, testCzi, some 1, none, some 1, true, true, true⟩

/-- Imaris environment: the Z voxel size entered is negative. -/
def testEnvNeg : ImsEnv :=
  ⟨true, testCzi, some 1, some 1, some (-1), true, true, true⟩

/-- Imaris environment: the external Finish call fails. -/
def testEnvFinishFail : ImsEnv :=
  ⟨true, testCzi, some 1, some 1, some 1, true, true, false⟩

/-! ### Helper lemmas about the assembly loop -/

/-- A successfully extracted plane has exactly Y*X samples. -/
lemma extractPlane_length {mos : NpArray} {Y X : Nat} {p : List Int}
    (h : extractPlane mos Y X = some p) : p.length = Y * X := by
  unfold extractPlane at h
  split at h
  · rename_i hc
    cases h
    simpa using Nat.min_eq_left hc.2.2
  · cases h

/-- A successfully decoded plane has exactly Y*X samples. -/
lemma planeO_length {czi : CziFile} {scale : ℚ} {Y X t c z : Nat} {p : List Int}
    (h : planeO czi scale Y X t c z = some p) : p.length = Y * X :=
  extractPlane_length h

/-- Writing a plane inside the bounds of the buffer preserves its length. -/
lemma writePlane_length {data p : List Int} {off : Nat}
    (h : off + p.length ≤ data.length) :
    (writePlane data off p).length = data.length := by
  unfold writePlane
  simp only [List.length_append, List.length_take, List.length_drop]
  omega

/-- The prefix of the buffer up to the end of a written plane is the old
prefix followed by the plane. -/
lemma writePlane_take {data p : List Int} {off : Nat}
    (h : off + p.length ≤ data.length) :
    (writePlane data off p).take (off + p.length) = data.take off ++ p := by
  unfold writePlane
  have hoff : (data.take off).length = off := by
    simp only [List.length_take]
    omega
  rw [List.append_assoc, show off + p.length = (data.take off).length + p.length by rw [hoff],
    List.take_append, List.take_left]

/-- Dropping past the end of a written plane sees the old buffer. -/
lemma writePlane_drop {data p : List Int} {off n : Nat}
    (h : off + p.length ≤ data.length) (hn : off + p.length ≤ n) :
    (writePlane data off p).drop n = data.drop n := by
  unfold writePlane
  have hoff : (data.take off ++ p).length = off + p.length := by
    simp only [List.length_append, List.length_take]
    omega
  rw [List.append_assoc, ← List.append_assoc,
    show n = (data.take off ++ p).length + (n - (off + p.length)) by omega,
    List.drop_append, List.drop_drop]
  congr 1
  omega

/-- Concatenating consecutive runs of range' under flatMap. -/
lemma range_flatMap_range' (M : Nat) :
    ∀ (k s : Nat), ((List.range k).flatMap fun i => List.range' (s + i * M) M)
      = List.range' s (k * M) := by
  intro k
  induction k with
  | zero => intro s; simp
  | succ n ih =>
    intro s
    rw [List.range_succ, List.flatMap_append, ih]
    have happ := List.range'_append s (n * M) M 1
    simp only [one_mul] at happ
    simp only [List.flatMap_cons, List.flatMap_nil, List.append_nil]
    rw [happ]
    congr 1
    ring

/-- The nested loop visits the row-major offsets 0, 1, ..., T*C*Z - 1 in
order. -/
lemma triples_map_offset (T C Z : Nat) :
    (triples T C Z).map (offsetOf C Z) = List.range' 0 (T * C * Z) := by
  unfold triples
  simp only [List.map_flatMap, List.map_map]
  have hinner : ∀ t c : Nat,
      List.map (offsetOf C Z ∘ fun z => (t, c, z)) (List.range Z)
        = List.range' (t * (C * Z) + c * Z) Z := by
    intro t c
    rw [List.range'_eq_map_range]
    refine List.map_congr_left fun z _ => ?_
    simp only [Function.comp_apply, offsetOf]
    ring
  have hmid : ∀ t : Nat,
      ((List.range C).flatMap fun c =>
        List.map (offsetOf C Z ∘ fun z => (t, c, z)) (List.range Z))
        = List.range' (t * (C * Z)) (C * Z) := by
    intro t
    have := range_flatMap_range' Z C (t * (C * Z))
    rw [← this]
    refine List.flatMap_congr ?_
    intro c _
    exact hinner t c
  calc ((List.range T).flatMap fun t => (List.range C).flatMap fun c =>
          List.map (offsetOf C Z ∘ fun z => (t, c, z)) (List.range Z))
      = (List.range T).flatMap fun t => List.range' (t * (C * Z)) (C * Z) := by
        refine List.flatMap_congr ?_
        intro t _
        exact hmid t
    _ = (List.range T).flatMap fun t => List.range' (0 + t * (C * Z)) (C * Z) := by
        simp
    _ = List.range' 0 (T * (C * Z)) := range_flatMap_range' (C * Z) T 0
    _ = List.range' 0 (T * C * Z) := by rw [Nat.mul_assoc]

/-- The nested loop visits T*C*Z triples. -/
lemma triples_length (T C Z : Nat) : (triples T C Z).length = T * C * Z := by
  have := congrArg List.length (triples_map_offset T C Z)
  simpa using this

/-- Membership in the visited triples is exactly in-bounds indexing. -/
lemma mem_triples {T C Z t c z : Nat} :
    (t, c, z) ∈ triples T C Z ↔ t < T ∧ c < C ∧ z < Z := by
  simp only [triples, List.mem_flatMap, List.mem_map, List.mem_range]
  constructor
  · rintro ⟨t₁, ht₁, c₁, hc₁, z₁, hz₁, heq⟩
    cases heq
    exact ⟨ht₁, hc₁, hz₁⟩
  · rintro ⟨ht, hc, hz⟩
    exact ⟨t, ht, c, hc, z, hz, rfl⟩

/-- No triple is visited twice. -/
lemma triples_nodup (T C Z : Nat) : (triples T C Z).Nodup :=
  List.Nodup.of_map (offsetOf C Z)
    (by rw [triples_map_offset]; exact List.nodup_range' 0 (T * C * Z))

/-- The triple at position i of the visit order has row-major offset i. -/
lemma offsetOf_getElem_triples {T C Z i : Nat} (h : i < (triples T C Z).length) :
    offsetOf C Z ((triples T C Z)[i]) = i := by
  have hm : i < (List.map (offsetOf C Z) (triples T C Z)).length := by
    simpa using h
  have := List.getElem_of_eq (triples_map_offset T C Z) hm
  rw [List.getElem_map] at this
  rw [this, List.getElem_range']
  simp

/-- An in-bounds triple sits at position offsetOf of the visit order. -/
lemma triples_getElem_offset {T C Z t c z : Nat}
    (ht : t < T) (hc : c < C) (hz : z < Z) :
    ∃ h : offsetOf C Z (t, c, z) < (triples T C Z).length,
      (triples T C Z)[offsetOf C Z (t, c, z)] = (t, c, z) := by
  have hmem : (t, c, z) ∈ triples T C Z := mem_triples.mpr ⟨ht, hc, hz⟩
  obtain ⟨i, hi, hget⟩ := List.getElem_of_mem hmem
  have hoff : offsetOf C Z (t, c, z) = i := by
    rw [← hget]
    exact offsetOf_getElem_triples hi
  rw [hoff]
  exact ⟨hi, hget⟩

/-- When the loop completes, every visited triple decoded successfully. -/
lemma runLoop_planes_isSome {czi : CziFile} {scale : ℚ} {Y X C Z : Nat} :
    ∀ {l : List (Nat × Nat × Nat)} {acc : List Int},
      (runLoop czi scale Y X C Z l acc).2 ≠ none →
      ∀ x ∈ l, (planeO czi scale Y X x.1 x.2.1 x.2.2).isSome := by
  intro l
  induction l with
  | nil => intro acc _ x hx; cases hx
  | cons y rest ih =>
    obtain ⟨t, c, z⟩ := y
    intro acc hne x hx
    rcases hp : planeO czi scale Y X t c z with _ | p
    · simp only [runLoop, hp] at hne
      exact absurd rfl hne
    · simp only [runLoop, hp] at hne
      rcases List.mem_cons.mp hx with heq | hmem
      · subst heq; simp [hp]
      · exact ih hne x hmem

/-- When every plane decodes, the loop requests exactly the given triples,
in order. -/
lemma runLoop_fst (czi : CziFile) (scale : ℚ) (Y X C Z : Nat) :
    ∀ (l : List (Nat × Nat × Nat)) (acc : List Int),
      (∀ x ∈ l, (planeO czi scale Y X x.1 x.2.1 x.2.2).isSome) →
      (runLoop czi scale Y X C Z l acc).1 =
        l.map fun x => Ev.readPlane x.1 x.2.1 x.2.2 := by
  intro l
  induction l with
  | nil => intro acc _; simp [runLoop]
  | cons y rest ih =>
    obtain ⟨t, c, z⟩ := y
    intro acc hsome
    obtain ⟨p, hp⟩ := Option.isSome_iff_exists.mp
      (hsome (t, c, z) (List.mem_cons_self _ _))
    simp only [runLoop, hp, List.map_cons]
    exact congrArg _ (ih _ fun x hx => hsome x (List.mem_cons_of_mem _ hx))

/-- Full characterization of the loop: visiting triples whose offsets are
the consecutive run k, k+1, ... overwrites exactly the corresponding
segment of the buffer with the decoded planes, in order. -/
lemma runLoop_spec (czi : CziFile) (scale : ℚ) (Y X C Z : Nat) :
    ∀ (l : List (Nat × Nat × Nat)) (k : Nat) (acc : List Int),
      l.map (offsetOf C Z) = List.range' k l.length →
      (∀ x ∈ l, (planeO czi scale Y X x.1 x.2.1 x.2.2).isSome) →
      (k + l.length) * (Y * X) ≤ acc.length →
      (runLoop czi scale Y X C Z l acc).2 =
        some (acc.take (k * (Y * X)) ++
          (l.map fun x => (planeO czi scale Y X x.1 x.2.1 x.2.2).getD []).flatten ++
          acc.drop ((k + l.length) * (Y * X))) := by
  intro l
  induction l with
  | nil =>
    intro k acc _ _ _
    simp [runLoop, List.take_append_drop]
  | cons y rest ih =>
    obtain ⟨t, c, z⟩ := y
    intro k acc hmap hsome hlen
    simp only [List.map_cons, List.length_cons, List.range'_succ, List.cons.injEq] at hmap
    obtain ⟨hoff, hmaprest⟩ := hmap
    obtain ⟨p, hp⟩ := Option.isSome_iff_exists.mp
      (hsome (t, c, z) (List.mem_cons_self _ _))
    have hplen : p.length = Y * X := planeO_length hp
    simp only [List.length_cons] at hlen
    have hstep : k * (Y * X) + p.length ≤ acc.length := by
      rw [hplen]
      calc k * (Y * X) + Y * X = (k + 1) * (Y * X) := by ring
        _ ≤ (k + (rest.length + 1)) * (Y * X) := Nat.mul_le_mul_right _ (by omega)
        _ ≤ acc.length := hlen
    have hlen' : (k + 1 + rest.length) * (Y * X) ≤
        (writePlane acc (k * (Y * X)) p).length := by
      rw [writePlane_length hstep]
      calc (k + 1 + rest.length) * (Y * X)
          = (k + (rest.length + 1)) * (Y * X) := by ring
        _ ≤ acc.length := hlen
    have hih := ih (k + 1) (writePlane acc (k * (Y * X)) p) hmaprest
      (fun x hx => hsome x (List.mem_cons_of_mem _ hx)) hlen'
    simp only [runLoop, hp, hoff]
    rw [hih]
    have htake : (k + 1) * (Y * X) = k * (Y * X) + p.length := by
      rw [hplen]; ring
    have hdropbound : k * (Y * X) + p.length ≤ (k + 1 + rest.length) * (Y * X) := by
      rw [hplen]
      calc k * (Y * X) + Y * X = (k + 1) * (Y * X) := by ring
        _ ≤ (k + 1 + rest.length) * (Y * X) := Nat.mul_le_mul_right _ (by omega)
    rw [htake, writePlane_take hstep, writePlane_drop hstep hdropbound]
    have hidx : k + 1 + rest.length = k + (rest.length + 1) := by omega
    rw [hidx]
    simp [hp, List.append_assoc]

/-- Flattening equal-length planes yields planes-times-plane-size samples. -/
lemma flatten_length_const {L : Nat} :
    ∀ {ps : List (List Int)}, (∀ p ∈ ps, p.length = L) →
      ps.flatten.length = ps.length * L := by
  intro ps
  induction ps with
  | nil => intro _; simp
  | cons p rest ih =>
    intro h
    simp only [List.flatten_cons, List.length_append, List.length_cons,
      h p (List.mem_cons_self _ _), ih fun q hq => h q (List.mem_cons_of_mem _ hq)]
    ring

/-- The i-th length-L segment of a flattening of length-L planes is the
i-th plane. -/
lemma flatten_slice {L : Nat} :
    ∀ (ps : List (List Int)) (i : Nat), (∀ p ∈ ps, p.length = L) →
      ∀ hi : i < ps.length, (ps.flatten.drop (i * L)).take L = ps[i] := by
  intro ps
  induction ps with
  | nil => intro i _ hi; cases hi
  | cons p rest ih =>
    intro i hlen hi
    have hp := hlen p (List.mem_cons_self _ _)
    cases i with
    | zero =>
      simp only [Nat.zero_mul, List.drop_zero, List.flatten_cons, List.getElem_cons_zero]
      rw [← hp, List.take_left]
    | succ n =>
      simp only [List.flatten_cons, List.getElem_cons_succ]
      have hidx : (n + 1) * L = p.length + n * L := by rw [hp]; ring
      rw [hidx, List.drop_append]
      exact ih n (fun q hq => hlen q (List.mem_cons_of_mem _ hq)) (by simpa using hi)

/-- Unfolding a successful assembly: the probe results, the dtype, and the
completed loop. -/
lemma assemble_eq_some {czi : CziFile} {scale : ℚ} {a : Assembled}
    (h : (assemble czi scale).2 = some a) :
    2 ≤ (sampleMosaic czi scale).shape.length ∧
    a.T = probedDim czi 'T' ∧ a.C = probedDim czi 'C' ∧ a.Z = probedDim czi 'Z' ∧
    a.Y = probedY czi scale ∧ a.X = probedX czi scale ∧
    a.dtype = (sampleMosaic czi scale).dtype ∧
    (runLoop czi scale a.Y a.X a.C a.Z (triples a.T a.C a.Z)
      (List.replicate (a.T * a.C * a.Z * (a.Y * a.X)) 0)).2 = some a.data := by
  unfold assemble at h
  split at h
  · rename_i hcond
    simp only [Option.map_eq_some'] at h
    obtain ⟨data, hrun, ha⟩ := h
    subst ha
    exact ⟨hcond, rfl, rfl, rfl, rfl, rfl, rfl, hrun⟩
  · simp at h

/-- A successful assembly decoded every visited triple. -/
lemma assemble_planes_isSome {czi : CziFile} {scale : ℚ} {a : Assembled}
    (h : (assemble czi scale).2 = some a) :
    ∀ x ∈ triples a.T a.C a.Z, (planeO czi scale a.Y a.X x.1 x.2.1 x.2.2).isSome := by
  have hrun := (assemble_eq_some h).2.2.2.2.2.2.2
  exact runLoop_planes_isSome (by rw [hrun]; exact fun hc => Option.noConfusion hc)

/-- The buffer of a successful assembly is the concatenation of the decoded
planes in visit order. -/
lemma assemble_data_flatten {czi : CziFile} {scale : ℚ} {a : Assembled}
    (h : (assemble czi scale).2 = some a) :
    a.data = ((triples a.T a.C a.Z).map fun x =>
      (planeO czi scale a.Y a.X x.1 x.2.1 x.2.2).getD []).flatten := by
  have hrun := (assemble_eq_some h).2.2.2.2.2.2.2
  have hspec := runLoop_spec czi scale a.Y a.X a.C a.Z (triples a.T a.C a.Z) 0
    (List.replicate (a.T * a.C * a.Z * (a.Y * a.X)) 0)
    (by rw [triples_length]; exact triples_map_offset a.T a.C a.Z)
    (assemble_planes_isSome h)
    (by simp [triples_length, Nat.mul_assoc])
  rw [hspec] at hrun
  have := Option.some.inj hrun
  rw [← this]
  simp [triples_length, Nat.mul_assoc]

/-- Every event the loop emits is a plane read. -/
lemma runLoop_fst_reads {czi : CziFile} {scale : ℚ} {Y X C Z : Nat} :
    ∀ {l : List (Nat × Nat × Nat)} {acc : List Int},
      ∀ e ∈ (runLoop czi scale Y X C Z l acc).1, isReadEv e = true := by
  intro l
  induction l with
  | nil => intro acc e he; simp [runLoop] at he
  | cons y rest ih =>
    obtain ⟨t, c, z⟩ := y
    intro acc e he
    rcases hp : planeO czi scale Y X t c z with _ | p
    · simp only [runLoop, hp, List.mem_singleton] at he
      subst he
      rfl
    · simp only [runLoop, hp] at he
      rcases List.mem_cons.mp he with rfl | hm
      · rfl
      · exact ih _ hm

/-- Every event the assembly stage emits is the file open or a plane
read. -/
lemma assemble_trace_events (czi : CziFile) (scale : ℚ) :
    ∀ e ∈ (assemble czi scale).1, e = Ev.openFile ∨ isReadEv e = true := by
  intro e he
  unfold assemble at he
  split at he
  · simp only [List.mem_cons] at he
    rcases he with rfl | rfl | hm
    · exact Or.inl rfl
    · exact Or.inr rfl
    · exact Or.inr (runLoop_fst_reads e hm)
  · simp only [List.mem_cons] at he
    rcases he with rfl | rfl | hm
    · exact Or.inl rfl
    · exact Or.inr rfl
    · cases hm

/-- A dict lookup of an absent key yields the default. -/
lemma dictGet_not_mem {keys : List Char} {vals : List Nat} {k : Char} {d : Nat}
    (h : k ∉ keys) : dictGet keys vals k d = d := by
  unfold dictGet
  rcases hf : (List.zip keys vals).reverse.find? (fun p => p.1 == k) with _ | p
  · rw [hf]
  · exfalso
    have hp := List.find?_some hf
    have hmem := List.mem_of_find?_eq_some hf
    rw [List.mem_reverse] at hmem
    have hk := (List.of_mem_zip hmem).1
    rw [beq_iff_eq] at hp
    exact h (hp ▸ hk)

/-- The buffer of a successful assembly has exactly T*C*Z*Y*X samples. -/
lemma assemble_data_length {czi : CziFile} {scale : ℚ} {a : Assembled}
    (h : (assemble czi scale).2 = some a) :
    a.data.length = a.T * a.C * a.Z * (a.Y * a.X) := by
  rw [assemble_data_flatten h]
  rw [flatten_length_const (L := a.Y * a.X) ?_]
  · rw [List.length_map, triples_length]
  · intro p hp
    rw [List.mem_map] at hp
    obtain ⟨x, hx, hpx⟩ := hp
    obtain ⟨q, hq⟩ := Option.isSome_iff_exists.mp (assemble_planes_isSome h x hx)
    rw [← hpx, hq]
    simpa using planeO_length hq

/-- Every event of the assembly stage fails any predicate that rejects the
file open and all plane reads. -/
lemma assemble_ev_false (czi : CziFile) (scale : ℚ) (p : Ev → Bool)
    (h1 : p Ev.openFile = false) (h2 : ∀ t c z, p (Ev.readPlane t c z) = false) :
    ∀ e ∈ (assemble czi scale).1, p e = false := by
  intro e he
  rcases assemble_trace_events czi scale e he with rfl | hr
  · exact h1
  · cases e <;> simp only [isReadEv] at hr <;> first
      | exact h2 _ _ _
      | cases hr

/-- The assembly stage emits no writer-side event. -/
lemma assemble_any_false (czi : CziFile) (scale : ℚ) (p : Ev → Bool)
    (h1 : p Ev.openFile = false) (h2 : ∀ t c z, p (Ev.readPlane t c z) = false) :
    (assemble czi scale).1.any p = false :=
  List.any_eq_false.mpr fun e he => by
    rw [assemble_ev_false czi scale p h1 h2 e he]
    exact Bool.false_ne_true

/-- Filtering the assembly trace for writer-side events yields nothing. -/
lemma assemble_filter_nil (czi : CziFile) (scale : ℚ) (p : Ev → Bool)
    (h1 : p Ev.openFile = false) (h2 : ∀ t c z, p (Ev.readPlane t c z) = false) :
    (assemble czi scale).1.filter p = [] :=
  List.filter_eq_nil_iff.mpr fun e he => by
    rw [assemble_ev_false czi scale p h1 h2 e he]
    exact Bool.false_ne_true

/-- The channel name at index i of the Finish parameters. -/
lemma channelNames_getD {C i : Nat} (h : i < C) :
    (channelNames C).getD i "" = "Channel " ++ toString i := by
  unfold channelNames
  rw [List.getD_eq_getElem _ _ (by simpa using h), List.getElem_map,
    List.getElem_range]

/-- The color at index i of the Finish parameters: palette entry i mod 4
with alpha 1. -/
lemma color_infos_getD {C i : Nat} (h : i < C) :
    (color_infos C).getD i (0, 0, 0, 0) =
      ((base_rgbs.getD (i % 4) (0, 0, 0)).1,
       (base_rgbs.getD (i % 4) (0, 0, 0)).2.1,
       (base_rgbs.getD (i % 4) (0, 0, 0)).2.2, (1 : ℚ)) := by
  unfold color_infos
  rw [List.getD_eq_getElem _ _ (by simpa using h), List.getElem_map,
    List.getElem_range]
  rfl

/-- Decomposition of a successful Imaris conversion: the availability flag
and all three external calls succeeded, the prompts all returned values,
and the trace is the assembly trace followed by the three prompts, the
converter construction, the single block copy, the finalize call and the
destroy call. -/
lemma ims_ok_shape {env : ImsEnv} {path : String} {scale : ℚ}
    (hok : (convert_to_ims env path scale).2 = Except.ok ()) :
    env.imarisAvailable = true ∧ env.initOk = true ∧ env.copyOk = true ∧
    env.finishOk = true ∧
    ∃ a vx vy vz, (assemble env.czi scale).2 = some a ∧
      env.promptX = some vx ∧ env.promptY = some vy ∧ env.promptZ = some vz ∧
      (convert_to_ims env path scale).1 =
        (assemble env.czi scale).1 ++
        [Ev.askVoxel 'X', Ev.askVoxel 'Y', Ev.askVoxel 'Z',
         Ev.initConverter a.dtype (a.X, a.Y, a.Z, a.C, a.T) (1, 1, 1, 1, 1)
           (a.X, a.Y, a.Z, a.C, a.T) ['x', 'y', 'z', 'c', 't'] path,
         Ev.copyBlock a.data (0, 0, 0, 0, 0),
         Ev.finishCall (0, 0, 0, vx * (a.X : ℚ), vy * (a.Y : ℚ), vz * (a.Z : ℚ))
           (channelNames a.C) (color_infos a.C) true,
         Ev.destroy] := by
  obtain ⟨av, czi, px, py, pz, iok, cok, fok⟩ := env
  cases av
  · simp [convert_to_ims] at hok
  · rcases ha : (assemble czi scale).2 with _ | a
    · simp [convert_to_ims, ha] at hok
    · rcases px with _ | vx
      · simp [convert_to_ims, ha] at hok
      · rcases py with _ | vy
        · simp [convert_to_ims, ha] at hok
        · rcases pz with _ | vz
          · simp [convert_to_ims, ha] at hok
          · cases iok
            · simp [convert_to_ims, ha] at hok
            · cases cok
              · simp [convert_to_ims, ha] at hok
              · cases fok
                · simp [convert_to_ims, ha] at hok
                · refine ⟨rfl, rfl, rfl, rfl, a, vx, vy, vz, rfl, rfl, rfl, rfl, ?_⟩
                  simp [convert_to_ims, ha, List.append_assoc]

/-! ### The claims -/

/-- Claim C1: for every source whose probed extents are T, C, Z and whose
sample plane read at (T=0, C=0, Z=0) has shape (Y, X), the assembled array
has shape (T, C, Z, Y, X), its dtype equals the dtype of that first sampled
plane, and for every in-bounds triple (t, c, z) the slice at [t, c, z]
holds exactly the plane decoded for that triple, so no slice is left at its
zero-initialized value when all reads succeed. -/
theorem assembled_shape_dtype_slices (czi : CziFile) (scale : ℚ) (a : Assembled)
    (h : (assemble czi scale).2 = some a) :
    a.T = probedDim czi 'T' ∧ a.C = probedDim czi 'C' ∧ a.Z = probedDim czi 'Z' ∧
    a.Y = probedY czi scale ∧ a.X = probedX czi scale ∧
    a.dtype = (sampleMosaic czi scale).dtype ∧
    a.data.length = a.T * a.C * a.Z * (a.Y * a.X) ∧
    ∀ t c z, t < a.T → c < a.C → z < a.Z →
      (planeO czi scale a.Y a.X t c z).isSome = true ∧
      sliceAt a t c z = (planeO czi scale a.Y a.X t c z).getD [] := by
  obtain ⟨_, hT, hC, hZ, hY, hX, hdt, _⟩ := assemble_eq_some h
  refine ⟨hT, hC, hZ, hY, hX, hdt, assemble_data_length h, ?_⟩
  intro t c z ht hc hz
  have hsome := assemble_planes_isSome h (t, c, z) (mem_triples.mpr ⟨ht, hc, hz⟩)
  refine ⟨hsome, ?_⟩
  obtain ⟨hi, hgi⟩ := triples_getElem_offset ht hc hz
  have hi' : offsetOf a.C a.Z (t, c, z) < ((triples a.T a.C a.Z).map fun x =>
      (planeO czi scale a.Y a.X x.1 x.2.1 x.2.2).getD []).length := by
    simpa using hi
  have hsl := flatten_slice (L := a.Y * a.X)
    ((triples a.T a.C a.Z).map fun x => (planeO czi scale a.Y a.X x.1 x.2.1 x.2.2).getD [])
    (offsetOf a.C a.Z (t, c, z)) ?_ hi'
  · unfold sliceAt
    rw [assemble_data_flatten h, hsl, List.getElem_map, hgi]
  · intro p hp
    rw [List.mem_map] at hp
    obtain ⟨x, hx, hpx⟩ := hp
    obtain ⟨q, hq⟩ := Option.isSome_iff_exists.mp (assemble_planes_isSome h x hx)
    rw [← hpx, hq]
    simpa using planeO_length hq

/-- Witness for claim C1 at the concrete test source: the hypothesis holds
at scale 1 and the concluded plane placement is checked at (0, 0, 1). -/
theorem assembled_shape_dtype_slices_witness :
    (assemble testCzi 1).2 = some testA ∧
    testA.data.length = testA.T * testA.C * testA.Z * (testA.Y * testA.X) ∧
    sliceAt testA 0 0 1 = (planeO testCzi 1 testA.Y testA.X 0 0 1).getD [] :=
  ⟨by decide,
   (assembled_shape_dtype_slices testCzi 1 testA (by decide)).2.2.2.2.2.2.1,
   ((assembled_shape_dtype_slices testCzi 1 testA (by decide)).2.2.2.2.2.2.2
     0 0 1 (by decide) (by decide) (by decide)).2⟩

/-- Claim C2: the assembly loop enumerates every (t, c, z) triple in
nested row-major order with T outermost, then C, then Z innermost,
requests exactly one plane per triple with no short-circuiting, and a
returned mosaic carrying a leading singleton dimension is collapsed before
the plane is copied. -/
theorem loop_enumeration_order (czi : CziFile) (scale : ℚ) (Y X T C Z : Nat)
    (acc : List Int)
    (hsome : ∀ x ∈ triples T C Z, (planeO czi scale Y X x.1 x.2.1 x.2.2).isSome) :
    (runLoop czi scale Y X C Z (triples T C Z) acc).1 =
      ((List.range T).flatMap fun t => (List.range C).flatMap fun c =>
        (List.range Z).map fun z => Ev.readPlane t c z) ∧
    (∀ t c z, t < T → c < C → z < Z →
      (runLoop czi scale Y X C Z (triples T C Z) acc).1.count (Ev.readPlane t c z) = 1) ∧
    (∀ mos : NpArray, mos.shape = [1, Y, X] → mos.data.length = Y * X →
      0 < Y * X → extractPlane mos Y X = some mos.data) := by
  have hfst := runLoop_fst czi scale Y X C Z (triples T C Z) acc hsome
  have hinj : Function.Injective fun x : Nat × Nat × Nat =>
      Ev.readPlane x.1 x.2.1 x.2.2 := by
    intro x y hxy
    obtain ⟨x1, x2, x3⟩ := x
    obtain ⟨y1, y2, y3⟩ := y
    simp only [Ev.readPlane.injEq] at hxy
    simp [hxy.1, hxy.2.1, hxy.2.2]
  refine ⟨?_, ?_, ?_⟩
  · rw [hfst]
    simp only [triples, List.map_flatMap, List.map_map]
    rfl
  · intro t c z ht hc hz
    rw [hfst]
    refine List.count_eq_one_of_mem (List.Nodup.map hinj (triples_nodup T C Z)) ?_
    exact List.mem_map.mpr ⟨(t, c, z), mem_triples.mpr ⟨ht, hc, hz⟩, rfl⟩
  · intro mos h1 h2 h3
    unfold extractPlane
    rw [if_pos ⟨h3, by rw [h2]; simp, by rw [h2]⟩]
    rw [← h2, List.take_length]

/-- Witness for claim C2 at the concrete test source: the trace equality,
the count at triple (0, 0, 1) and the collapse of a concrete (1, 2, 2)
mosaic. -/
theorem loop_enumeration_order_witness :
    (runLoop testCzi 1 2 2 1 2 (triples 1 1 2) (List.replicate 8 0)).1 =
      ((List.range 1).flatMap fun t => (List.range 1).flatMap fun c =>
        (List.range 2).map fun z => Ev.readPlane t c z) ∧
    (runLoop testCzi 1 2 2 1 2 (triples 1 1 2) (List.replicate 8 0)).1.count
      (Ev.readPlane 0 0 1) = 1 ∧
    extractPlane ⟨[1, 2, 2], [5, 6, 7, 8], "uint16"⟩ 2 2 = some [5, 6, 7, 8] :=
  ⟨(loop_enumeration_order testCzi 1 2 2 1 1 2 (List.replicate 8 0) (by decide)).1,
   (loop_enumeration_order testCzi 1 2 2 1 1 2 (List.replicate 8 0) (by decide)).2.1
     0 0 1 (by decide) (by decide) (by decide),
   (loop_enumeration_order testCzi 1 2 2 1 1 2 (List.replicate 8 0) (by decide)).2.2
     ⟨[1, 2, 2], [5, 6, 7, 8], "uint16"⟩ (by decide) (by decide) (by decide)⟩

/-- Claim C3: assembly is deterministic; two runs over sources with the
same observable data and the same scale factor produce identical traces
and bit-identical arrays. -/
theorem assembly_deterministic (czi₁ czi₂ : CziFile) (scale : ℚ)
    (hd : czi₁.dims = czi₂.dims) (hs : czi₁.size = czi₂.size)
    (hr : ∀ t c z s, czi₁.readMosaic t c z s = czi₂.readMosaic t c z s) :
    assemble czi₁ scale = assemble czi₂ scale := by
  have heq : czi₁ = czi₂ := by
    cases czi₁
    cases czi₂
    simp only [CziFile.mk.injEq]
    refine ⟨hd, hs, ?_⟩
    funext t c z s
    exact hr t c z s
  rw [heq]

/-- Witness for claim C3: two identical runs on the concrete test source. -/
theorem assembly_deterministic_witness :
    testCzi.dims = testCzi.dims ∧
    assemble testCzi 1 = assemble testCzi 1 :=
  ⟨rfl, assembly_deterministic testCzi testCzi 1 rfl rfl fun _ _ _ _ => rfl⟩

/-- Claim C10: a source whose dimension labels omit T, C or Z is assembled
with the missing extent defaulted to 1, and the array stays 5-dimensional
with T*C*Z*Y*X samples. -/
theorem missing_dims_default_one (czi : CziFile) (scale : ℚ) (a : Assembled)
    (h : (assemble czi scale).2 = some a) :
    ('T' ∉ czi.dims → a.T = 1) ∧ ('C' ∉ czi.dims → a.C = 1) ∧
    ('Z' ∉ czi.dims → a.Z = 1) ∧
    a.data.length = a.T * a.C * a.Z * (a.Y * a.X) := by
  obtain ⟨_, hT, hC, hZ, _, _, _, _⟩ := assemble_eq_some h
  refine ⟨?_, ?_, ?_, assemble_data_length h⟩
  · intro hm
    rw [hT]
    exact dictGet_not_mem hm
  · intro hm
    rw [hC]
    exact dictGet_not_mem hm
  · intro hm
    rw [hZ]
    exact dictGet_not_mem hm

/-- Witness for claim C10 at a source with no T, C or Z labels. -/
theorem missing_dims_default_one_witness :
    (assemble testCziNoDims 1).2 =
      some ⟨1, 1, 1, 2, 2, "uint8", [9, 8, 7, 6]⟩ ∧
    ('T' ∉ testCziNoDims.dims) ∧
    (⟨1, 1, 1, 2, 2, "uint8", [9, 8, 7, 6]⟩ : Assembled).T = 1 :=
  ⟨by decide, by decide,
   (missing_dims_default_one testCziNoDims 1 ⟨1, 1, 1, 2, 2, "uint8", [9, 8, 7, 6]⟩
     (by decide)).1 (by decide)⟩

/-- Claim C4: channel i of an Imaris export with C channels is named
"Channel i" and colored with palette entry i mod 4 of
[(1,0,0), (0,1,0), (0,0,1), (1,1,0)] at alpha 1.0; for C at most 4 the
assigned colors are pairwise distinct. -/
theorem channel_names_colors (C i : Nat) (h : i < C) :
    (channelNames C).getD i "" = "Channel " ++ toString i ∧
    (color_infos C).getD i (0, 0, 0, 0) =
      ((base_rgbs.getD (i % 4) (0, 0, 0)).1,
       (base_rgbs.getD (i % 4) (0, 0, 0)).2.1,
       (base_rgbs.getD (i % 4) (0, 0, 0)).2.2, (1 : ℚ)) ∧
    base_rgbs = [(1, 0, 0), (0, 1, 0), (0, 0, 1), (1, 1, 0)] ∧
    ((color_infos C).getD i (0, 0, 0, 0)).2.2.2 = 1 ∧
    (C ≤ 4 → ∀ j, j < C → j ≠ i →
      (color_infos C).getD j (0, 0, 0, 0) ≠ (color_infos C).getD i (0, 0, 0, 0)) := by
  refine ⟨channelNames_getD h, color_infos_getD h, rfl, ?_, ?_⟩
  · rw [color_infos_getD h]
  · intro hC j hj hne
    have hi4 : i < 4 := lt_of_lt_of_le h hC
    have hj4 : j < 4 := lt_of_lt_of_le hj hC
    rw [color_infos_getD h, color_infos_getD hj,
      Nat.mod_eq_of_lt hi4, Nat.mod_eq_of_lt hj4]
    interval_cases i <;> interval_cases j <;> first
      | exact absurd rfl hne
      | decide

/-- Witness for claim C4 with three channels, checked at channel 2: its
name, its color, and distinctness from channel 1. -/
theorem channel_names_colors_witness :
    (channelNames 3).getD 2 "" = "Channel " ++ toString 2 ∧
    (color_infos 3).getD 2 (0, 0, 0, 0) =
      ((base_rgbs.getD (2 % 4) (0, 0, 0)).1,
       (base_rgbs.getD (2 % 4) (0, 0, 0)).2.1,
       (base_rgbs.getD (2 % 4) (0, 0, 0)).2.2, (1 : ℚ)) ∧
    (color_infos 3).getD 1 (0, 0, 0, 0) ≠ (color_infos 3).getD 2 (0, 0, 0, 0) :=
  ⟨(channel_names_colors 3 2 (by decide)).1,
   (channel_names_colors 3 2 (by decide)).2.1,
   (channel_names_colors 3 2 (by decide)).2.2.2.2 (by decide) 1 (by decide) (by decide)⟩

/-- Claim C5: a successful Imaris export declares full image size
(x=X, y=Y, z=Z, c=C, t=T), a per-sample size of 1 in every axis and a
block size equal to the full image size; exactly one block is copied, it
is the row-major flat assembled buffer of T*C*Z*Y*X samples, and it goes
to block index zero. -/
theorem ims_single_block (env : ImsEnv) (path : String) (scale : ℚ) (a : Assembled)
    (ha : (assemble env.czi scale).2 = some a)
    (hok : (convert_to_ims env path scale).2 = Except.ok ()) :
    (convert_to_ims env path scale).1.filter isInitEv =
      [Ev.initConverter a.dtype (a.X, a.Y, a.Z, a.C, a.T) (1, 1, 1, 1, 1)
        (a.X, a.Y, a.Z, a.C, a.T) ['x', 'y', 'z', 'c', 't'] path] ∧
    (convert_to_ims env path scale).1.filter isCopyEv =
      [Ev.copyBlock a.data (0, 0, 0, 0, 0)] ∧
    a.data.length = a.T * a.C * a.Z * (a.Y * a.X) := by
  obtain ⟨_, _, _, _, a', vx, vy, vz, ha', _, _, _, htr⟩ := ims_ok_shape hok
  have haa : a' = a := Option.some.inj (ha' ▸ ha)
  subst haa
  refine ⟨?_, ?_, assemble_data_length ha⟩
  · rw [htr, List.filter_append,
      assemble_filter_nil env.czi scale isInitEv rfl fun _ _ _ => rfl]
    simp [List.filter, isInitEv]
  · rw [htr, List.filter_append,
      assemble_filter_nil env.czi scale isCopyEv rfl fun _ _ _ => rfl]
    simp [List.filter, isCopyEv]

/-- Witness for claim C5 at the concrete environment: the conversion
succeeds and copies exactly the one flat block at index zero. -/
theorem ims_single_block_witness :
    (assemble testEnvOk.czi 1).2 = some testA ∧
    (convert_to_ims testEnvOk "o.ims" 1).2 = Except.ok () ∧
    (convert_to_ims testEnvOk "o.ims" 1).1.filter isCopyEv =
      [Ev.copyBlock testA.data (0, 0, 0, 0, 0)] :=
  ⟨by decide, by rfl,
   (ims_single_block testEnvOk "o.ims" 1 testA (by decide) (by rfl)).2.1⟩

/-- Claim C6: when the Imaris writer library did not import, requesting an
Imaris export fails immediately with the unavailability error, before the
source file is opened and before any plane is read. -/
theorem ims_unavailable_fails_fast (env : ImsEnv) (path : String) (scale : ℚ)
    (h : env.imarisAvailable = false) :
    convert_to_ims env path scale =
      ([], Except.error "PyImarisWriter unavailable; cannot write .ims") ∧
    hasEv isReadEv (convert_to_ims env path scale).1 = false ∧
    Ev.openFile ∉ (convert_to_ims env path scale).1 := by
  have h1 : convert_to_ims env path scale =
      ([], Except.error "PyImarisWriter unavailable; cannot write .ims") := by
    unfold convert_to_ims
    rw [h]
    rfl
  refine ⟨h1, ?_, ?_⟩
  · rw [h1]
    rfl
  · rw [h1]
    simp

/-- Witness for claim C6 at the environment with the writer missing. -/
theorem ims_unavailable_fails_fast_witness :
    testEnvOff.imarisAvailable = false ∧
    convert_to_ims testEnvOff "o.ims" 1 =
      ([], Except.error "PyImarisWriter unavailable; cannot write .ims") :=
  ⟨by decide, (ims_unavailable_fails_fast testEnvOff "o.ims" 1 (by decide)).1⟩

/-- Claim C7: if any of the three voxel-size prompts is cancelled, the
whole Imaris export ends in an error before the writer is constructed and
before any block is copied; no default is substituted. -/
theorem ims_cancel_aborts (env : ImsEnv) (path : String) (scale : ℚ)
    (h : env.promptX = none ∨ env.promptY = none ∨ env.promptZ = none) :
    isErr (convert_to_ims env path scale).2 = true ∧
    hasEv isInitEv (convert_to_ims env path scale).1 = false ∧
    hasEv isCopyEv (convert_to_ims env path scale).1 = false := by
  obtain ⟨av, czi, px, py, pz, iok, cok, fok⟩ := env
  have hini := assemble_any_false czi scale isInitEv rfl fun _ _ _ => rfl
  have hcop := assemble_any_false czi scale isCopyEv rfl fun _ _ _ => rfl
  cases av
  · simp [convert_to_ims, hasEv, isErr]
  · rcases ha : (assemble czi scale).2 with _ | a
    · simp [convert_to_ims, ha, hasEv, isErr, hini, hcop]
    · simp only at h
      rcases h with h | h | h
      · subst h
        simp [convert_to_ims, ha, hasEv, isErr, List.any_append, hini, hcop,
          isInitEv, isCopyEv]
      · subst h
        rcases px with _ | vx <;>
          simp [convert_to_ims, ha, hasEv, isErr, List.any_append, hini, hcop,
            isInitEv, isCopyEv]
      · subst h
        rcases px with _ | vx <;> rcases py with _ | vy <;>
          simp [convert_to_ims, ha, hasEv, isErr, List.any_append, hini, hcop,
            isInitEv, isCopyEv]

/-- Witness for claim C7 at the environment whose Y prompt is cancelled. -/
theorem ims_cancel_aborts_witness :
    testEnvCancel.promptY = none ∧
    isErr (convert_to_ims testEnvCancel "o.ims" 1).2 = true ∧
    hasEv isInitEv (convert_to_ims testEnvCancel "o.ims" 1).1 = false :=
  ⟨by decide,
   (ims_cancel_aborts testEnvCancel "o.ims" 1 (Or.inr (Or.inl rfl))).1,
   (ims_cancel_aborts testEnvCancel "o.ims" 1 (Or.inr (Or.inl rfl))).2.1⟩

/-- Claim C8, corrected: the code checks the three voxel prompts only for
cancellation, never for positivity; whenever all three prompts return a
value and the assembly succeeded, the run reaches the writer
construction, whatever the values are. -/
theorem ims_prompts_only_checked_for_cancel (env : ImsEnv) (path : String)
    (scale : ℚ) (hav : env.imarisAvailable = true)
    (ha : (assemble env.czi scale).2.isSome = true)
    (hx : env.promptX.isSome = true) (hy : env.promptY.isSome = true)
    (hz : env.promptZ.isSome = true) :
    hasEv isInitEv (convert_to_ims env path scale).1 = true := by
  obtain ⟨av, czi, px, py, pz, iok, cok, fok⟩ := env
  simp only at hav ha hx hy hz
  subst hav
  obtain ⟨a, ha'⟩ := Option.isSome_iff_exists.mp ha
  obtain ⟨vx, hx'⟩ := Option.isSome_iff_exists.mp hx
  obtain ⟨vy, hy'⟩ := Option.isSome_iff_exists.mp hy
  obtain ⟨vz, hz'⟩ := Option.isSome_iff_exists.mp hz
  subst hx'
  subst hy'
  subst hz'
  cases iok <;> cases cok <;> cases fok <;>
    simp [convert_to_ims, ha', hasEv, List.any_append, isInitEv]

/-- Counterexample to claim C8 as stated: with all writer calls available,
entering -1 for the Z voxel size still reaches the writer construction,
although -1 is not greater than zero; a zero or negative entry does reach
the export. -/
theorem ims_accepts_nonpositive_voxel :
    testEnvNeg.promptZ = some (-1) ∧ ¬ (0 : ℚ) < -1 ∧
    hasEv isInitEv (convert_to_ims testEnvNeg "out.ims" 1).1 = true :=
  ⟨by decide, by decide, by decide⟩

/-- Witness for the corrected claim C8: the run with the negative Z voxel
size satisfies all the hypotheses and reaches the writer construction. -/
theorem ims_prompts_only_checked_for_cancel_witness :
    testEnvNeg.promptZ.isSome = true ∧
    hasEv isInitEv (convert_to_ims testEnvNeg "out.ims" 1).1 = true :=
  ⟨by decide,
   ims_prompts_only_checked_for_cancel testEnvNeg "out.ims" 1
     (by decide) (by decide) (by decide) (by decide) (by decide)⟩

/-- Claim C9: in the Imaris export the Destroy call happens if and only if
the Finish call was made and completed successfully; on a finalize failure
no Destroy is performed. -/
theorem ims_destroy_iff_finish_ok (env : ImsEnv) (path : String) (scale : ℚ) :
    hasEv isDestroyEv (convert_to_ims env path scale).1 =
      (hasEv isFinishEv (convert_to_ims env path scale).1 && env.finishOk) := by
  obtain ⟨av, czi, px, py, pz, iok, cok, fok⟩ := env
  have hfin := assemble_any_false czi scale isFinishEv rfl fun _ _ _ => rfl
  have hdes := assemble_any_false czi scale isDestroyEv rfl fun _ _ _ => rfl
  cases av
  · simp [convert_to_ims, hasEv]
  · rcases ha : (assemble czi scale).2 with _ | a
    · simp [convert_to_ims, ha, hasEv, hfin, hdes]
    · rcases px with _ | vx <;> rcases py with _ | vy <;> rcases pz with _ | vz <;>
        cases iok <;> cases cok <;> cases fok <;>
        simp [convert_to_ims, ha, hasEv, List.any_append, hfin, hdes,
          isFinishEv, isDestroyEv]
